import Mathlib

/-!
# Verification of the `lsmp3` traversal-and-aggregation engine

Shallow embedding of the walker, entry normalization and comparator of the
`lsmp3` repository (`src/ls/list.rs`, `src/ls/cmp.rs`, `src/info.rs`,
`src/ls/info.rs`), together with proofs settling the specification claims.

Modelling conventions:
* Rust `u64`/`u32` become `Nat`, `i32` becomes `Int` (only comparisons are
  performed on them, so wrap-around never arises).
* `OsString` file names become `String`; Rust compares `OsString` by raw
  bytes, which for UTF-8 text coincides with the code-point-wise
  lexicographic comparison used here.
* Rust `Ordering` becomes Lean `Ordering` (`lt`/`eq`/`gt`),
  `Ordering::reverse` becomes `Ordering.swap`.
* Fallible operations become `Except`.
-/

/-! ## Scalar comparators (Rust `Ord::cmp` on scalars) -/

/-- Rust `Ord::cmp` on `Nat`-valued scalars (`u64`, `u32`). -/
def cmpNat (a b : Nat) : Ordering :=
  if a < b then .lt else if a = b then .eq else .gt

/-- Rust `Ord::cmp` on `Int`-valued scalars (`i32`). -/
def cmpInt (a b : Int) : Ordering :=
  if a < b then .lt else if a = b then .eq else .gt

/-- Rust `char`/byte comparison, via the code point. -/
def cmpChar (a b : Char) : Ordering :=
  cmpNat a.toNat b.toNat

/-- Rust `Option<T>::cmp` (derived): `None` sorts before `Some`. -/
def cmpOption (c : α → α → Ordering) : Option α → Option α → Ordering
  | none, none => .eq
  | none, some _ => .lt
  | some _, none => .gt
  | some a, some b => c a b

/-- Rust `Iterator::cmp` / `Vec::cmp`: lexicographic comparison of
sequences, element by element, then by length. -/
def cmpList (c : α → α → Ordering) : List α → List α → Ordering
  | [], [] => .eq
  | [], _ :: _ => .lt
  | _ :: _, [] => .gt
  | x :: xs, y :: ys =>
    match c x y with
    | .eq => cmpList c xs ys
    | o => o

/-- Rust `String`/`str` comparison: lexicographic over the characters
(equal to the raw-byte comparison for UTF-8 text). -/
def cmpString (a b : String) : Ordering :=
  cmpList cmpChar a.data b.data

/-- Model of Rust `str::to_lowercase` for a single character, faithful on
the ASCII range (the claims under verification only exercise ASCII; the
full Unicode lowercase table is not embedded). -/
def rustCharToLower (ch : Char) : Char :=
  if 65 ≤ ch.toNat ∧ ch.toNat ≤ 90 then Char.ofNat (ch.toNat + 32) else ch

/-- Model of Rust `str::to_lowercase` (per-character case folding). -/
def rustToLowercase (s : String) : String :=
  String.mk (s.data.map rustCharToLower)

/-! ## Data model (`src/ls/info.rs` / `src/info.rs`) -/

/-- The track metadata for a file (`Track` in `info.rs`). -/
structure Track where
  /-- The track number. -/
  number : Option Nat
  /-- The total number of tracks. -/
  total : Option Nat
deriving DecidableEq, Repr

/-- A result from a list operation (`Entry` in `info.rs`, with the field
names used by `src/ls/list.rs` and the integration tests). -/
structure Entry where
  file_name : String
  file_size : Nat
  title : List String
  title_sort_order : Option (List String)
  artist : List String
  artist_sort_order : Option (List String)
  album : List String
  album_sort_order : Option (List String)
  year : Option Int
  track : Track
  genre : List String
deriving DecidableEq, Repr

/-- Rust derived `Ord` on `Track`: the pair `(number, total)`,
lexicographically, each component with `None` before `Some`. -/
def cmpTrack (a b : Track) : Ordering :=
  (cmpOption cmpNat a.number b.number).then (cmpOption cmpNat a.total b.total)

/-- `is_track_empty` from `info.rs`: a track is "empty" when its `number`
is absent, regardless of `total`. -/
def is_track_empty (track : Track) : Bool :=
  track.number.isNone

/-- A property to sort by (`SortBy` in `src/ls/cmp.rs`). -/
inductive SortBy
  | FileName
  | FileSize
  | Title
  | Artist
  | Album
  | Year
  | Track
  | Genre
deriving DecidableEq, Repr

/-! ## Comparator (`src/ls/cmp.rs`) -/

/-- `cmp_vec_string`: case insensitive comparison of two string sequences;
the sort order vectors are used for the comparison if provided. -/
def cmp_vec_string (a b : List String) (a_sort_order b_sort_order : Option (List String)) :
    Ordering :=
  cmpList cmpString ((a_sort_order.getD a).map rustToLowercase)
    ((b_sort_order.getD b).map rustToLowercase)

/-- `cmp_entry_key`: compares the given key for an `Entry`. -/
def cmp_entry_key (a b : Entry) : SortBy → Ordering
  | .FileName => cmpString a.file_name b.file_name
  | .FileSize => cmpNat a.file_size b.file_size
  | .Title => cmp_vec_string a.title b.title a.title_sort_order b.title_sort_order
  | .Artist => cmp_vec_string a.artist b.artist a.artist_sort_order b.artist_sort_order
  | .Album => cmp_vec_string a.album b.album a.album_sort_order b.album_sort_order
  | .Year => cmpOption cmpInt a.year b.year
  | .Track => cmpTrack a.track b.track
  | .Genre => cmp_vec_string a.genre b.genre none none

/-- `cmp_entry`: compares the given keys for an `Entry` in order. If the
comparison for the first key yields an equal result, the next key is
compared and the process repeats until either the result is non-equal or
all keys have been compared. -/
def cmp_entry (a b : Entry) : List SortBy → Ordering
  | [] => .eq
  | key :: keys =>
    match cmp_entry_key a b key with
    | .eq => cmp_entry a b keys
    | o => o

example : cmpNat 3 5 = .lt := by decide
example : cmpString "abc" "abd" = .lt := by decide
example : rustToLowercase "ADele" = "adele" := by decide
example : cmpTrack ⟨none, some 5⟩ ⟨none, some 7⟩ = .lt := by decide

/-! ## Comparator algebra

`LawfulCmp c` collects the laws making the comparator `c` induce a strict
weak ordering: `c a b = .lt` is a strict weak order whose associated
equivalence is `c a b = .eq`. -/

/-- The laws of a well-behaved three-way comparator. -/
structure LawfulCmp (c : α → α → Ordering) : Prop where
  refl : ∀ a, c a a = .eq
  swap : ∀ a b, (c a b).swap = c b a
  lt_trans : ∀ {a b d}, c a b = .lt → c b d = .lt → c a d = .lt
  eq_trans : ∀ {a b d}, c a b = .eq → c b d = .eq → c a d = .eq
  eq_lt : ∀ {a b d}, c a b = .eq → c b d = .lt → c a d = .lt
  lt_eq : ∀ {a b d}, c a b = .lt → c b d = .eq → c a d = .lt

theorem cmpNat_eq_lt {a b : Nat} : cmpNat a b = .lt ↔ a < b := by
  simp only [cmpNat]; split_ifs <;> simp <;> omega

theorem cmpNat_eq_eq {a b : Nat} : cmpNat a b = .eq ↔ a = b := by
  simp only [cmpNat]; split_ifs <;> simp <;> omega

theorem cmpNat_eq_gt {a b : Nat} : cmpNat a b = .gt ↔ b < a := by
  simp only [cmpNat]; split_ifs <;> simp <;> omega

theorem lawful_cmpNat : LawfulCmp cmpNat := by
  constructor
  · intro a; simp [cmpNat_eq_eq]
  · intro a b
    cases h : cmpNat a b
    · rw [cmpNat_eq_lt] at h
      exact (cmpNat_eq_gt.mpr h).symm
    · rw [cmpNat_eq_eq] at h
      exact (cmpNat_eq_eq.mpr h.symm).symm
    · rw [cmpNat_eq_gt] at h
      exact (cmpNat_eq_lt.mpr h).symm
  · intro a b d h₁ h₂
    rw [cmpNat_eq_lt] at *; omega
  · intro a b d h₁ h₂
    rw [cmpNat_eq_eq] at *; omega
  · intro a b d h₁ h₂
    rw [cmpNat_eq_eq] at h₁; rw [cmpNat_eq_lt] at *; omega
  · intro a b d h₁ h₂
    rw [cmpNat_eq_eq] at h₂; rw [cmpNat_eq_lt] at *; omega

theorem cmpInt_eq_lt {a b : Int} : cmpInt a b = .lt ↔ a < b := by
  simp only [cmpInt]; split_ifs <;> simp <;> omega

theorem cmpInt_eq_eq {a b : Int} : cmpInt a b = .eq ↔ a = b := by
  simp only [cmpInt]; split_ifs <;> simp <;> omega

theorem cmpInt_eq_gt {a b : Int} : cmpInt a b = .gt ↔ b < a := by
  simp only [cmpInt]; split_ifs <;> simp <;> omega

theorem lawful_cmpInt : LawfulCmp cmpInt := by
  constructor
  · intro a; simp [cmpInt_eq_eq]
  · intro a b
    cases h : cmpInt a b
    · rw [cmpInt_eq_lt] at h
      exact (cmpInt_eq_gt.mpr h).symm
    · rw [cmpInt_eq_eq] at h
      exact (cmpInt_eq_eq.mpr h.symm).symm
    · rw [cmpInt_eq_gt] at h
      exact (cmpInt_eq_lt.mpr h).symm
  · intro a b d h₁ h₂
    rw [cmpInt_eq_lt] at *; omega
  · intro a b d h₁ h₂
    rw [cmpInt_eq_eq] at *; omega
  · intro a b d h₁ h₂
    rw [cmpInt_eq_eq] at h₁; rw [cmpInt_eq_lt] at *; omega
  · intro a b d h₁ h₂
    rw [cmpInt_eq_eq] at h₂; rw [cmpInt_eq_lt] at *; omega

/-- A comparator obtained by first applying a key function is lawful. -/
theorem lawful_comap {c : β → β → Ordering} (hc : LawfulCmp c) (f : α → β) :
    LawfulCmp (fun a b => c (f a) (f b)) where
  refl a := hc.refl (f a)
  swap a b := hc.swap (f a) (f b)
  lt_trans h₁ h₂ := hc.lt_trans h₁ h₂
  eq_trans h₁ h₂ := hc.eq_trans h₁ h₂
  eq_lt h₁ h₂ := hc.eq_lt h₁ h₂
  lt_eq h₁ h₂ := hc.lt_eq h₁ h₂

theorem lawful_cmpChar : LawfulCmp cmpChar :=
  lawful_comap lawful_cmpNat Char.toNat

theorem lawful_cmpOption {c : α → α → Ordering} (hc : LawfulCmp c) :
    LawfulCmp (cmpOption c) := by
  constructor
  · intro a; cases a <;> simp [cmpOption, hc.refl]
  · intro a b; cases a <;> cases b <;> simp [cmpOption, Ordering.swap] <;>
      exact hc.swap _ _
  · intro a b d h₁ h₂
    cases a <;> cases b <;> cases d <;> simp_all [cmpOption]
    exact hc.lt_trans h₁ h₂
  · intro a b d h₁ h₂
    cases a <;> cases b <;> cases d <;> simp_all [cmpOption]
    exact hc.eq_trans h₁ h₂
  · intro a b d h₁ h₂
    cases a <;> cases b <;> cases d <;> simp_all [cmpOption]
    exact hc.eq_lt h₁ h₂
  · intro a b d h₁ h₂
    cases a <;> cases b <;> cases d <;> simp_all [cmpOption]
    exact hc.lt_eq h₁ h₂

theorem cmpList_cons {c : α → α → Ordering} {x y : α} {xs ys : List α} :
    cmpList c (x :: xs) (y :: ys) =
      match c x y with
      | .eq => cmpList c xs ys
      | o => o := rfl

theorem lawful_cmpList {c : α → α → Ordering} (hc : LawfulCmp c) :
    LawfulCmp (cmpList c) := by
  constructor
  · intro l
    induction l with
    | nil => rfl
    | cons x xs ih => simp [cmpList, hc.refl, ih]
  · intro l₁ l₂
    induction l₁ generalizing l₂ with
    | nil => cases l₂ <;> rfl
    | cons x xs ih =>
      cases l₂ with
      | nil => rfl
      | cons y ys =>
        simp only [cmpList]
        cases h : c x y
        · rw [← hc.swap x y, h]; rfl
        · rw [← hc.swap x y, h]
          simpa [Ordering.swap] using ih ys
        · rw [← hc.swap x y, h]; rfl
  · intro l₁ l₂ l₃ h₁ h₂
    induction l₁ generalizing l₂ l₃ with
    | nil => cases l₂ <;> cases l₃ <;> simp_all [cmpList]
    | cons x xs ih =>
      cases l₂ with
      | nil => simp [cmpList] at h₁
      | cons y ys =>
        cases l₃ with
        | nil => simp [cmpList] at h₂
        | cons z zs =>
          rw [cmpList_cons] at h₁ h₂ ⊢
          cases hxy : c x y with
          | lt =>
            cases hyz : c y z with
            | lt => simp [hc.lt_trans hxy hyz]
            | eq => simp [hc.lt_eq hxy hyz]
            | gt => simp [hyz] at h₂
          | eq =>
            simp only [hxy] at h₁
            cases hyz : c y z with
            | lt => simp [hc.eq_lt hxy hyz]
            | eq =>
              simp only [hyz] at h₂
              simp only [hc.eq_trans hxy hyz]
              exact ih h₁ h₂
            | gt => simp [hyz] at h₂
          | gt => simp [hxy] at h₁
  · intro l₁ l₂ l₃ h₁ h₂
    induction l₁ generalizing l₂ l₃ with
    | nil => cases l₂ <;> cases l₃ <;> simp_all [cmpList]
    | cons x xs ih =>
      cases l₂ with
      | nil => simp [cmpList] at h₁
      | cons y ys =>
        cases l₃ with
        | nil => simp [cmpList] at h₂
        | cons z zs =>
          rw [cmpList_cons] at h₁ h₂ ⊢
          cases hxy : c x y with
          | lt => simp [hxy] at h₁
          | eq =>
            simp only [hxy] at h₁
            cases hyz : c y z with
            | lt => simp [hyz] at h₂
            | eq =>
              simp only [hyz] at h₂
              simp only [hc.eq_trans hxy hyz]
              exact ih h₁ h₂
            | gt => simp [hyz] at h₂
          | gt => simp [hxy] at h₁
  · intro l₁ l₂ l₃ h₁ h₂
    induction l₁ generalizing l₂ l₃ with
    | nil => cases l₂ <;> cases l₃ <;> simp_all [cmpList]
    | cons x xs ih =>
      cases l₂ with
      | nil => simp [cmpList] at h₁
      | cons y ys =>
        cases l₃ with
        | nil => simp [cmpList] at h₂
        | cons z zs =>
          rw [cmpList_cons] at h₁ h₂ ⊢
          cases hxy : c x y with
          | lt => simp [hxy] at h₁
          | eq =>
            simp only [hxy] at h₁
            cases hyz : c y z with
            | lt => simp [hc.eq_lt hxy hyz]
            | eq =>
              simp only [hyz] at h₂
              simp only [hc.eq_trans hxy hyz]
              exact ih h₁ h₂
            | gt => simp [hyz] at h₂
          | gt => simp [hxy] at h₁
  · intro l₁ l₂ l₃ h₁ h₂
    induction l₁ generalizing l₂ l₃ with
    | nil => cases l₂ <;> cases l₃ <;> simp_all [cmpList]
    | cons x xs ih =>
      cases l₂ with
      | nil => simp [cmpList] at h₁
      | cons y ys =>
        cases l₃ with
        | nil => simp [cmpList] at h₂
        | cons z zs =>
          rw [cmpList_cons] at h₁ h₂ ⊢
          cases hxy : c x y with
          | lt =>
            cases hyz : c y z with
            | lt => simp [hyz] at h₂
            | eq => simp [hc.lt_eq hxy hyz]
            | gt => simp [hyz] at h₂
          | eq =>
            simp only [hxy] at h₁
            cases hyz : c y z with
            | lt => simp [hyz] at h₂
            | eq =>
              simp only [hyz] at h₂
              simp only [hc.eq_trans hxy hyz]
              exact ih h₁ h₂
            | gt => simp [hyz] at h₂
          | gt => simp [hxy] at h₁

theorem lawful_cmpString : LawfulCmp cmpString :=
  lawful_comap (lawful_cmpList lawful_cmpChar) String.data

/-- Pointwise lexicographic combination of two lawful comparators
(`Ordering::then`, as produced by Rust `derive(Ord)` on a struct). -/
theorem lawful_then {c₁ c₂ : α → α → Ordering} (h₁ : LawfulCmp c₁) (h₂ : LawfulCmp c₂) :
    LawfulCmp (fun a b => (c₁ a b).then (c₂ a b)) := by
  have key : ∀ a b o, (c₁ a b).then (c₂ a b) = o ↔
      (c₁ a b = .eq ∧ c₂ a b = o) ∨ (c₁ a b = o ∧ o ≠ .eq) := by
    intro a b o
    cases h : c₁ a b <;> cases o <;> simp [Ordering.then]
  constructor
  · intro a; simp [h₁.refl, h₂.refl, Ordering.then]
  · intro a b
    rw [← h₁.swap a b, ← h₂.swap a b, Ordering.swap_then]
  · intro a b d hab hbd
    rw [key] at hab hbd ⊢
    rcases hab with ⟨e₁, l₁⟩ | ⟨l₁, -⟩ <;> rcases hbd with ⟨e₂, l₂⟩ | ⟨l₂, -⟩
    · exact .inl ⟨h₁.eq_trans e₁ e₂, h₂.lt_trans l₁ l₂⟩
    · exact .inr ⟨h₁.eq_lt e₁ l₂, by simp⟩
    · exact .inr ⟨h₁.lt_eq l₁ e₂, by simp⟩
    · exact .inr ⟨h₁.lt_trans l₁ l₂, by simp⟩
  · intro a b d hab hbd
    rw [key] at hab hbd ⊢
    rcases hab with ⟨e₁, l₁⟩ | ⟨-, hne⟩
    · rcases hbd with ⟨e₂, l₂⟩ | ⟨-, hne⟩
      · exact .inl ⟨h₁.eq_trans e₁ e₂, h₂.eq_trans l₁ l₂⟩
      · exact absurd rfl hne
    · exact absurd rfl hne
  · intro a b d hab hbd
    rw [key] at hab hbd ⊢
    rcases hab with ⟨e₁, l₁⟩ | ⟨-, hne⟩
    · rcases hbd with ⟨e₂, l₂⟩ | ⟨l₂, -⟩
      · exact .inl ⟨h₁.eq_trans e₁ e₂, h₂.eq_lt l₁ l₂⟩
      · exact .inr ⟨h₁.eq_lt e₁ l₂, by simp⟩
    · exact absurd rfl hne
  · intro a b d hab hbd
    rw [key] at hab hbd ⊢
    rcases hbd with ⟨e₂, l₂⟩ | ⟨-, hne⟩
    · rcases hab with ⟨e₁, l₁⟩ | ⟨l₁, -⟩
      · exact .inl ⟨h₁.eq_trans e₁ e₂, h₂.lt_eq l₁ l₂⟩
      · exact .inr ⟨h₁.lt_eq l₁ e₂, by simp⟩
    · exact absurd rfl hne

theorem lawful_cmpTrack : LawfulCmp cmpTrack := by
  have h := lawful_then
    (lawful_comap (lawful_cmpOption lawful_cmpNat) Track.number)
    (lawful_comap (lawful_cmpOption lawful_cmpNat) Track.total)
  exact h

/-- Each single sort key is a lawful comparator on entries. -/
theorem lawful_cmp_entry_key (key : SortBy) :
    LawfulCmp (fun a b => cmp_entry_key a b key) := by
  cases key
  · exact lawful_comap lawful_cmpString Entry.file_name
  · exact lawful_comap lawful_cmpNat Entry.file_size
  · exact lawful_comap (lawful_cmpList lawful_cmpString)
      (fun e : Entry => (e.title_sort_order.getD e.title).map rustToLowercase)
  · exact lawful_comap (lawful_cmpList lawful_cmpString)
      (fun e : Entry => (e.artist_sort_order.getD e.artist).map rustToLowercase)
  · exact lawful_comap (lawful_cmpList lawful_cmpString)
      (fun e : Entry => (e.album_sort_order.getD e.album).map rustToLowercase)
  · exact lawful_comap (lawful_cmpOption lawful_cmpInt) Entry.year
  · exact lawful_comap lawful_cmpTrack Entry.track
  · exact lawful_comap (lawful_cmpList lawful_cmpString)
      (fun e : Entry => e.genre.map rustToLowercase)

/-- The constant-`eq` comparator is lawful. -/
theorem lawful_const_eq : LawfulCmp (fun (_ _ : α) => Ordering.eq) where
  refl _ := rfl
  swap _ _ := rfl
  lt_trans h₁ _ := h₁
  eq_trans _ _ := rfl
  eq_lt _ h₂ := h₂
  lt_eq h₁ _ := h₁

theorem cmp_entry_cons {a b : Entry} {key : SortBy} {keys : List SortBy} :
    cmp_entry a b (key :: keys) = (cmp_entry_key a b key).then (cmp_entry a b keys) := by
  simp only [cmp_entry]
  cases cmp_entry_key a b key <;> rfl

/-- The multi-key entry comparator is lawful for every key sequence. -/
theorem lawful_cmp_entry (keys : List SortBy) :
    LawfulCmp (fun a b => cmp_entry a b keys) := by
  induction keys with
  | nil => exact lawful_const_eq
  | cons key keys ih =>
    have h := lawful_then (lawful_cmp_entry_key key) ih
    constructor
    · intro a; rw [cmp_entry_cons]; exact h.refl a
    · intro a b; rw [cmp_entry_cons, cmp_entry_cons]; exact h.swap a b
    · intro a b d h₁ h₂
      rw [cmp_entry_cons] at *
      exact h.lt_trans h₁ h₂
    · intro a b d h₁ h₂
      rw [cmp_entry_cons] at *
      exact h.eq_trans h₁ h₂
    · intro a b d h₁ h₂
      rw [cmp_entry_cons] at *
      exact h.eq_lt h₁ h₂
    · intro a b d h₁ h₂
      rw [cmp_entry_cons] at *
      exact h.lt_eq h₁ h₂

/-! ## Entry normalization (`src/ls/list.rs` lines 98–145)

An extracted ID3 tag is modelled as the association list of its text
frames (`text_values_for_frame_id`) plus the numeric year, recording-date
year, track and total-track accessors used by `list.rs`. -/

/-- The tag data returned by the extractor (`id3::Tag`, restricted to the
accessors the program uses). -/
structure TagData where
  /-- Text frames: `frame_id` to the frame's list of text values
  (`Tag::text_values_for_frame_id`). -/
  frames : List (String × List String)
  /-- `Tag::year()`. -/
  year : Option Int
  /-- `Tag::date_recorded().map(|d| d.year)`. -/
  date_recorded_year : Option Int
  /-- `Tag::track()`. -/
  track : Option Nat
  /-- `Tag::total_tracks()`. -/
  total_tracks : Option Nat
deriving DecidableEq, Repr

/-- `tag_option_string_values`: the frame's text values with empty strings
dropped, `none` when the frame is absent. -/
def tag_option_string_values (tag : TagData) (frame_id : String) : Option (List String) :=
  (tag.frames.lookup frame_id).map (fun v => v.filter (fun s => !s.isEmpty))

/-- `tag_string_values`: like `tag_option_string_values` but defaulting to
the empty sequence. -/
def tag_string_values (tag : TagData) (frame_id : String) : List String :=
  (tag_option_string_values tag frame_id).getD []

/-- The `Entry` literal built for one walked file in `list_path`
(`src/ls/list.rs` lines 100–115). -/
def mkEntry (file_name : String) (file_size : Nat) (tag : TagData) : Entry where
  file_name := file_name
  file_size := file_size
  title := tag_string_values tag "TIT2"
  title_sort_order := tag_option_string_values tag "TSOT"
  artist := tag_string_values tag "TPE1"
  artist_sort_order := tag_option_string_values tag "TSOP"
  album := tag_string_values tag "TALB"
  album_sort_order := tag_option_string_values tag "TSOA"
  genre := tag_string_values tag "TCON"
  year := tag.year.or tag.date_recorded_year
  track := { number := tag.track, total := tag.total_tracks }

/-! ## Human readable sizes (`src/info.rs` 67–77 and `src/ls/info.rs` 75–85)

The source computes `e = floor(log_1024 s)` and
`val = floor(s / 1024^e * 10 + 0.5) / 10` in `f64` arithmetic; the model
performs the same computation in exact integer arithmetic (`val10` is
`val * 10`). `format!("{:3}" …)`/`"{:3.1}"` right-align numbers in a
3-character field; `"{:3.0}"` rounds half-to-even. -/

/-- The unit suffix table. -/
def sizeSuffixes : List String := ["B", "kiB", "MiB", "GiB", "TiB", "PiB", "EiB"]

/-- `floor(log_1024 s)` for `s ≥ 10` (fuel 7 covers the whole `u64`
range, since `2^64 < 1024^7`). -/
def log1024Go : Nat → Nat → Nat
  | 0, _ => 0
  | fuel + 1, s => if s < 1024 then 0 else log1024Go fuel (s / 1024) + 1

/-- `(s as f64).log(1024.0).floor()` modelled exactly. -/
def log1024 (s : Nat) : Nat := log1024Go 7 s

/-- Right-align a string in a field of the given width (Rust `{:w}` for
numeric arguments). -/
def padNumLeft (width : Nat) (s : String) : String :=
  if s.length < width then String.mk (List.replicate (width - s.length) ' ') ++ s else s

/-- Rust `{:3.0}` rounding of a one-decimal value (`val10 / 10`):
round half to even. -/
def roundHalfToEven (val10 : Nat) : Nat :=
  if 5 < val10 % 10 || (val10 % 10 == 5 && (val10 / 10) % 2 == 1) then
    val10 / 10 + 1
  else
    val10 / 10

/-- `format!("{:3.precision$}", val, …)` with `precision = (val < 10.0)`:
one decimal place below 10, otherwise rounded to an integer, right-aligned
in a 3-character field. -/
def formatSizeVal (val10 : Nat) : String :=
  if val10 < 100 then
    padNumLeft 3 (toString (val10 / 10) ++ "." ++ toString (val10 % 10))
  else
    padNumLeft 3 (toString (roundHalfToEven val10))

/-- `human_readable_size` from `src/info.rs` (the crate-integrated
variant): sizes below 10 print as `format!("{:3} B", s)`. -/
def human_readable_size (s : Nat) : String :=
  if s < 10 then
    padNumLeft 3 (toString s) ++ " " ++ sizeSuffixes.getD 0 ""
  else
    let e := log1024 s
    let base := 1024 ^ e
    let val10 := (20 * s + base) / (2 * base)
    formatSizeVal val10 ++ " " ++ sizeSuffixes.getD e ""

/-- `human_readable_size` from `src/ls/info.rs` (the `ls` module variant):
sizes below 10 print as `format!("{} B", s)`, without field padding. -/
def human_readable_size_ls_variant (s : Nat) : String :=
  if s < 10 then
    toString s ++ " " ++ sizeSuffixes.getD 0 ""
  else
    let e := log1024 s
    let base := 1024 ^ e
    let val10 := (20 * s + base) / (2 * base)
    formatSizeVal val10 ++ " " ++ sizeSuffixes.getD e ""

example : human_readable_size 8080 = "7.9 kiB" := by decide
example : human_readable_size 4 = "  4 B" := by decide
example : human_readable_size_ls_variant 4 = "4 B" := by decide
example : human_readable_size 10 = " 10 B" := by decide

/-! ## Path walker (`src/ls/list.rs`)

The filesystem is modelled as a tree: a regular file carries the outcome
of `metadata()` (its size, or an I/O fault) and the outcome of
`id3::Tag::read_from_path` (a tag, or an `id3` error); a directory
carries its immediate children (name and node); `other` stands for
anything that is neither a regular file nor a directory (and also for a
nonexistent path, which fails the same `is_dir`/`is_file` test).
`WalkDir::max_depth(1)` enumeration yields exactly the children plus the
root itself; the root self-reference is excluded by the
`dir_entry.path() != path` test in the source and therefore does not
appear among the children here.  Faults of the directory enumeration
itself are not modelled (only per-file `metadata`/tag-read faults are). -/

/-- An `std::io::Error`, identified by an abstract code. -/
abbrev IoErr := Nat

/-- `id3::Error` kinds as matched by `list_path`: the `Io` kind, and every
other kind (`NoTag`, `Parsing`, …) which the walker treats as "not an MP3
file". -/
inductive Id3Err
  | io (err : IoErr)
  | other
deriving DecidableEq, Repr

/-- A node of the filesystem tree. -/
inductive FsNode
  | file (meta : Except IoErr Nat) (tag : Except Id3Err TagData)
  | dir (children : List (String × FsNode))
  | other
deriving Repr

/-- `LsError` from `src/error.rs` (the variants reachable from
`list_path`). -/
inductive LsError
  | invalidPath (path : String)
  | ioReadError (path : String) (err : IoErr)
  | id3Error (path : String) (err : Id3Err)
deriving DecidableEq, Repr

/-- `PathType` from `src/info.rs`. -/
inductive PathType
  | File
  | Directory
deriving DecidableEq, Repr

/-- `Info` from `src/info.rs`: the results of listing one path. -/
structure Info where
  path : String
  path_type : PathType
  entries : List Entry
deriving DecidableEq, Repr

/-- `ListOptions` from `src/ls/list.rs`. -/
structure ListOptions where
  sort_by : List SortBy
  reverse : Bool
  recursive : Bool

/-- `Path::join` for one component. -/
def childPath (dir name : String) : String := dir ++ "/" ++ name

/-- The characters of the final path component: everything after the last
separator. -/
def lastComponent : List Char → List Char → List Char
  | [], acc => acc.reverse
  | ch :: rest, acc =>
    if ch = '/' then lastComponent rest [] else lastComponent rest (ch :: acc)

/-- `path.file_name().unwrap_or_default()`: the final path component
(paths are taken in the usual form, without trailing separators or `..`
endings). -/
def pathFileName (path : String) : String := String.mk (lastComponent path.data [])

/-- Model of Rust slice sorting (`sort_unstable`, `sort_unstable_by`,
walkdir's `sort_by_file_name`): a permutation of the input sorted
according to the comparator. -/
def sortByCmp (c : α → α → Ordering) (l : List α) : List α :=
  List.insertionSort (fun a b => (c a b).isLE) l

/-- `Ordering::reverse` applied when the reverse option is set
(`src/ls/list.rs` lines 117–124). -/
def applyReverse (reverse : Bool) (o : Ordering) : Ordering :=
  if reverse then o.swap else o

/-- `entries.sort_unstable_by(…)`: sort by the multi-key comparison,
reversed as a whole when requested. -/
def sortEntries (opts : ListOptions) (entries : List Entry) : List Entry :=
  sortByCmp (fun a b => applyReverse opts.reverse (cmp_entry a b opts.sort_by)) entries

/-- One record of `walk_entries`: `Either::Left((file_name, len, tag))`
for a parsed file, `Either::Right(path)` for a pending subdirectory (the
node is carried along so that the recursion can look the directory up). -/
abbrev WalkRec := (String × Nat × TagData) ⊕ (String × FsNode)

/-- The body of the `filter_map` closure of `list_path` (lines 46–78),
classifying one enumerated child. -/
def classifyChild (recursive : Bool) (dirPath : String) (c : String × FsNode) :
    Option (Except LsError WalkRec) :=
  match c.2 with
  | .file meta tag =>
    match meta with
    | .ok size =>
      match tag with
      | .ok tagData => some (.ok (.inl (c.1, size, tagData)))
      | .error (.io err) => some (.error (.ioReadError (childPath dirPath c.1) err))
      | .error .other => none
    | .error err => some (.error (.ioReadError (childPath dirPath c.1) err))
  | .dir _ => if recursive then some (.ok (.inr (childPath dirPath c.1, c.2))) else none
  | .other => none

/-- `collect::<Result<Vec<_>, _>>()`: the values, or the first error. -/
def collectExcept : List (Except ε α) → Except ε (List α)
  | [] => .ok []
  | .error e :: _ => .error e
  | .ok x :: rest => (collectExcept rest).map (x :: ·)

/-- The `walk_entries` computation for the directory case: enumerate the
children sorted by file name, classify each, drop the skipped ones and
collect values or the first error. -/
def walkDirEntries (recursive : Bool) (path : String) (children : List (String × FsNode)) :
    Except LsError (List WalkRec) :=
  collectExcept ((sortByCmp (fun a b => cmpString a.1 b.1) children).filterMap
    (classifyChild recursive path))

/-- The `files` half of `partition_map`. -/
def filesOf (walked : List WalkRec) : List (String × Nat × TagData) :=
  walked.filterMap fun w => match w with | .inl f => some f | .inr _ => none

/-- The `subdirs` half of `partition_map`, after `subdirs.sort_unstable()`. -/
def subdirsOf (walked : List WalkRec) : List (String × FsNode) :=
  sortByCmp (fun a b => cmpString a.1 b.1)
    (walked.filterMap fun w => match w with | .inl _ => none | .inr d => some d)

theorem mem_sortByCmp {c : α → α → Ordering} {x : α} {l : List α} :
    x ∈ sortByCmp c l ↔ x ∈ l :=
  List.mem_insertionSort _

theorem mem_of_collectExcept_ok {l : List (Except ε α)} {w : List α}
    (h : collectExcept l = .ok w) {x : α} (hx : x ∈ w) : Except.ok x ∈ l := by
  induction l generalizing w with
  | nil =>
    simp [collectExcept] at h
    subst h
    simp at hx
  | cons hd tl ih =>
    cases hd with
    | error e => simp [collectExcept] at h
    | ok v =>
      simp only [collectExcept] at h
      cases hr : collectExcept tl with
      | error e => rw [hr] at h; simp [Except.map] at h
      | ok rest =>
        rw [hr] at h
        simp [Except.map] at h
        subst h
        rcases List.mem_cons.mp hx with h | h
        · subst h; exact List.mem_cons_self _ _
        · exact List.mem_cons_of_mem _ (ih hr h)

theorem classifyChild_inr {recursive : Bool} {dirPath : String} {c : String × FsNode}
    {d : String × FsNode} (h : classifyChild recursive dirPath c = some (.ok (.inr d))) :
    d.2 = c.2 := by
  rcases c with ⟨name, node⟩
  cases node with
  | file meta tag =>
    cases meta with
    | ok size =>
      cases tag with
      | ok t => simp [classifyChild] at h
      | error err => cases err <;> simp [classifyChild] at h
    | error err => simp [classifyChild] at h
  | dir cs =>
    simp only [classifyChild] at h
    split at h
    · simp only [Option.some.injEq, Except.ok.injEq, Sum.inr.injEq] at h
      subst h
      rfl
    · simp at h
  | other => simp [classifyChild] at h

/-- Every pending subdirectory node is (the node of) one of the
directory's children; used for termination of `listPath`. -/
theorem subdir_mem {recursive : Bool} {path : String} {children : List (String × FsNode)}
    {walked : List WalkRec} {d : String × FsNode}
    (hw : walkDirEntries recursive path children = .ok walked)
    (hd : d ∈ subdirsOf walked) : ∃ name, (name, d.2) ∈ children := by
  rw [subdirsOf, mem_sortByCmp, List.mem_filterMap] at hd
  obtain ⟨w, hwmem, hwd⟩ := hd
  cases w with
  | inl f => simp at hwd
  | inr d₀ =>
    simp at hwd
    subst hwd
    have hmem := mem_of_collectExcept_ok hw hwmem
    rw [List.mem_filterMap] at hmem
    obtain ⟨c, hcmem, hc⟩ := hmem
    rw [mem_sortByCmp] at hcmem
    have h2 := classifyChild_inr hc
    exact ⟨c.1, by rw [h2]; exact hcmem⟩


/-- Decidable equality for `Except` results. -/
instance {ε α : Type} [DecidableEq ε] [DecidableEq α] : DecidableEq (Except ε α) := fun a b =>
  match a, b with
  | .ok x, .ok y => if h : x = y then .isTrue (by rw [h]) else .isFalse (by simp [h])
  | .error x, .error y => if h : x = y then .isTrue (by rw [h]) else .isFalse (by simp [h])
  | .ok _, .error _ => .isFalse (by simp)
  | .error _, .ok _ => .isFalse (by simp)

/-- `list_path` (`src/ls/list.rs` lines 31–134). -/
def listPath (node : FsNode) (path : String) (opts : ListOptions) :
    Except LsError (List Info) :=
  match node with
  | .other => .error (.invalidPath path)
  | .file meta tag =>
    match meta with
    | .error e => .error (.ioReadError path e)
    | .ok size =>
      match tag with
      | .error err => .error (.id3Error path err)
      | .ok tagData =>
        .ok [{ path := path, path_type := .File,
               entries := sortEntries opts [mkEntry (pathFileName path) size tagData] }]
  | .dir children =>
    match hw : walkDirEntries opts.recursive path children with
    | .error e => .error e
    | .ok walked =>
      let entries := sortEntries opts ((filesOf walked).map fun f => mkEntry f.1 f.2.1 f.2.2)
      match collectExcept ((subdirsOf walked).attach.map fun d =>
          listPath d.val.2 d.val.1 opts) with
      | .error e => .error e
      | .ok results =>
        .ok ({ path := path, path_type := .Directory, entries := entries } :: results.flatten)
termination_by sizeOf node
decreasing_by
  obtain ⟨name, hn⟩ := subdir_mem hw d.property
  have h1 := List.sizeOf_lt_of_mem hn
  simp at h1 ⊢
  omega

/-- `list` (`src/ls/list.rs` lines 19–29): list all given paths, or the
current working directory when none are given. `paths` comes pre-resolved
to (path string, filesystem node) pairs; `cwd` is the node of `"."`. -/
def list (cwd : FsNode) (paths : List (String × FsNode)) (opts : ListOptions) :
    Except LsError (List Info) :=
  if paths.isEmpty then
    listPath cwd "." opts
  else
    (collectExcept (paths.map fun p => listPath p.2 p.1 opts)).map List.flatten

/-! ## Auxiliary definitions used by the claim statements -/

/-- The first non-`eq` ordering in a list, or `eq` when there is none. -/
def firstNonEq (l : List Ordering) : Ordering :=
  (l.find? (fun o => o != .eq)).getD .eq

/-- A default entry, used to build concrete examples. -/
def baseEntry : Entry where
  file_name := ""
  file_size := 0
  title := []
  title_sort_order := none
  artist := []
  artist_sort_order := none
  album := []
  album_sort_order := none
  year := none
  track := { number := none, total := none }
  genre := []

/-- A tag supplying a title sort-name frame whose only value is the empty
string. -/
def tagEmptySortName : TagData :=
  { frames := [("TSOT", [""])], year := none, date_recorded_year := none,
    track := none, total_tracks := none }

/-- Two listing results describe the same place: same path, same path
type, and entry lists that are permutations of each other. -/
def InfoRel (a b : Info) : Prop :=
  a.path = b.path ∧ a.path_type = b.path_type ∧ a.entries.Perm b.entries

/-- Two `Except` outcomes agree up to a relation on the successful value:
same error, or related values. -/
def ExceptRel (R : α → β → Prop) (x : Except ε α) (y : Except ε β) : Prop :=
  (∃ e, x = .error e ∧ y = .error e) ∨ (∃ a b, x = .ok a ∧ y = .ok b ∧ R a b)

/-- A concrete tag used in witnesses. -/
def tagSong : TagData :=
  { frames := [("TIT2", ["Song"])], year := some 2002, date_recorded_year := none,
    track := some 3, total_tracks := none }

/-- A concrete well-formed MP3 file node used in witnesses. -/
def fsSong : FsNode := .file (.ok 100) (.ok tagSong)

/-! ## Unfolding lemmas for `listPath`

`listPath` is defined by well-founded recursion; these equations restate
its behaviour per filesystem-node shape in a form that rewriting tactics
can use (the guarded match on `walkDirEntries` does not rewrite well
directly). -/

theorem listPath_other (path : String) (opts : ListOptions) :
    listPath .other path opts = .error (.invalidPath path) := by
  rw [listPath.eq_def]

theorem listPath_file_meta_error (e : IoErr) (tag : Except Id3Err TagData)
    (path : String) (opts : ListOptions) :
    listPath (.file (.error e) tag) path opts = .error (.ioReadError path e) := by
  rw [listPath.eq_def]

theorem listPath_file_tag_error (size : Nat) (err : Id3Err) (path : String)
    (opts : ListOptions) :
    listPath (.file (.ok size) (.error err)) path opts = .error (.id3Error path err) := by
  rw [listPath.eq_def]

theorem listPath_file_ok (size : Nat) (tag : TagData) (path : String) (opts : ListOptions) :
    listPath (.file (.ok size) (.ok tag)) path opts =
      .ok [{ path := path, path_type := .File,
             entries := sortEntries opts [mkEntry (pathFileName path) size tag] }] := by
  rw [listPath.eq_def]

theorem listPath_dir_error {children : List (String × FsNode)} {path : String}
    {opts : ListOptions} {e : LsError}
    (hw : walkDirEntries opts.recursive path children = .error e) :
    listPath (.dir children) path opts = .error e := by
  rw [listPath.eq_def]
  split
  · rename_i heq
    cases heq
  · rename_i heq
    cases heq
  · rename_i c₂ heq
    injection heq with heq
    subst heq
    split
    · rename_i e₂ h
      rw [hw] at h
      injection h with h
      rw [h]
    · rename_i walked₂ h
      rw [hw] at h
      cases h

theorem listPath_dir_ok {children : List (String × FsNode)} {path : String}
    {opts : ListOptions} {walked : List WalkRec}
    (hw : walkDirEntries opts.recursive path children = .ok walked) :
    listPath (.dir children) path opts =
      match collectExcept ((subdirsOf walked).map fun d => listPath d.2 d.1 opts) with
      | .error e => .error e
      | .ok results =>
        .ok ({ path := path, path_type := .Directory,
               entries := sortEntries opts
                 ((filesOf walked).map fun f => mkEntry f.1 f.2.1 f.2.2) } ::
          results.flatten) := by
  rw [listPath.eq_def]
  split
  · rename_i heq
    cases heq
  · rename_i heq
    cases heq
  · rename_i c₂ heq
    injection heq with heq
    subst heq
    split
    · rename_i e₂ h
      rw [hw] at h
      cases h
    · rename_i walked₂ h
      rw [hw] at h
      injection h with h
      subst h
      rw [List.attach_map_val (subdirsOf walked) (fun d => listPath d.2 d.1 opts)]

/-! ## Sorting lemmas -/

/-- `Ordering.isLE` of a lawful comparator is a total relation. -/
theorem lawful_isLE_total {c : α → α → Ordering} (hc : LawfulCmp c) (a b : α) :
    (c a b).isLE = true ∨ (c b a).isLE = true := by
  cases h : c a b
  · exact .inl rfl
  · exact .inl rfl
  · refine .inr ?_
    have := hc.swap a b
    rw [h] at this
    rw [← this]
    rfl

/-- `Ordering.isLE` of a lawful comparator is transitive. -/
theorem lawful_isLE_trans {c : α → α → Ordering} (hc : LawfulCmp c) {a b d : α}
    (h₁ : (c a b).isLE = true) (h₂ : (c b d).isLE = true) : (c a d).isLE = true := by
  cases hab : c a b with
  | gt => rw [hab] at h₁; exact absurd h₁ (by decide)
  | lt =>
    cases hbd : c b d with
    | gt => rw [hbd] at h₂; exact absurd h₂ (by decide)
    | lt => rw [hc.lt_trans hab hbd]; rfl
    | eq => rw [hc.lt_eq hab hbd]; rfl
  | eq =>
    cases hbd : c b d with
    | gt => rw [hbd] at h₂; exact absurd h₂ (by decide)
    | lt => rw [hc.eq_lt hab hbd]; rfl
    | eq => rw [hc.eq_trans hab hbd]; rfl

/-- The model of Rust slice sorting returns a permutation of its input. -/
theorem sortByCmp_perm (c : α → α → Ordering) (l : List α) :
    (sortByCmp c l).Perm l :=
  List.perm_insertionSort _ l

/-- The model of Rust slice sorting sorts by the comparator. -/
theorem sortByCmp_sorted {c : α → α → Ordering} (hc : LawfulCmp c) (l : List α) :
    List.Pairwise (fun a b => (c a b).isLE = true) (sortByCmp c l) := by
  haveI : IsTotal α (fun a b => (c a b).isLE = true) := ⟨lawful_isLE_total hc⟩
  haveI : IsTrans α (fun a b => (c a b).isLE = true) :=
    ⟨fun _ _ _ h₁ h₂ => lawful_isLE_trans hc h₁ h₂⟩
  exact List.sorted_insertionSort _ l

/-- The comparator on walked children and pending subdirectories: by name
(respectively full path), raw bytes. -/
theorem lawful_cmpFst : LawfulCmp (fun a b : String × FsNode => cmpString a.1 b.1) :=
  lawful_comap lawful_cmpString Prod.fst
/-! ## Claim C3: left-to-right key evaluation -/

/-- C3: `cmp_entry` evaluates the keys left to right: the empty key
sequence yields `Equal`, and otherwise the result is the first non-equal
single-key comparison along the sequence, or `Equal` when every key
compares equal. -/
theorem cmp_entry_left_to_right (a b : Entry) (keys : List SortBy) :
    cmp_entry a b [] = .eq ∧
    cmp_entry a b keys = firstNonEq (keys.map (cmp_entry_key a b)) := by
  refine ⟨rfl, ?_⟩
  induction keys with
  | nil => rfl
  | cons key rest ih =>
    simp only [cmp_entry, List.map, firstNonEq, List.find?]
    cases h : cmp_entry_key a b key
    · rfl
    · simpa [firstNonEq] using ih
    · rfl

/-! ## Claim C4: case-insensitive, override-aware string keys -/

/-- C4: the string-sequence keys (title, artist, album, genre) compare the
case-folded sequences element-wise — each element lowered independently,
sequences compared lexicographically by element then by length — with each
side's sort-order override used in place of its display sequence when
present; genre always compares its raw sequence; the file-name key
compares exactly, without case folding. In particular an entry with artist
`["adele"]` and one with artist `["ADELE"]` compare `Equal` on the Artist
key. -/
theorem string_keys_case_insensitive :
    (∀ a b : Entry, cmp_entry_key a b .Title =
      cmpList cmpString ((a.title_sort_order.getD a.title).map rustToLowercase)
        ((b.title_sort_order.getD b.title).map rustToLowercase)) ∧
    (∀ a b : Entry, cmp_entry_key a b .Artist =
      cmpList cmpString ((a.artist_sort_order.getD a.artist).map rustToLowercase)
        ((b.artist_sort_order.getD b.artist).map rustToLowercase)) ∧
    (∀ a b : Entry, cmp_entry_key a b .Album =
      cmpList cmpString ((a.album_sort_order.getD a.album).map rustToLowercase)
        ((b.album_sort_order.getD b.album).map rustToLowercase)) ∧
    (∀ a b : Entry, cmp_entry_key a b .Genre =
      cmpList cmpString (a.genre.map rustToLowercase) (b.genre.map rustToLowercase)) ∧
    (∀ a b : Entry, cmp_entry_key a b .FileName = cmpString a.file_name b.file_name) ∧
    (∀ (x y : String) (xs ys : List String),
      cmpList cmpString [] [] = .eq ∧
      cmpList cmpString [] (y :: ys) = .lt ∧
      cmpList cmpString (x :: xs) [] = .gt ∧
      cmpList cmpString (x :: xs) (y :: ys) =
        (cmpString x y).then (cmpList cmpString xs ys)) ∧
    cmp_entry_key { baseEntry with artist := ["adele"] }
      { baseEntry with artist := ["ADELE"] } .Artist = .eq := by
  refine ⟨fun a b => rfl, fun a b => rfl, fun a b => rfl, fun a b => rfl, fun a b => rfl,
    fun x y xs ys => ⟨rfl, rfl, rfl, ?_⟩, by decide⟩
  rw [cmpList_cons]
  cases cmpString x y <;> rfl

/-! ## Claim C5: strict weak ordering -/

/-- C5: for every sort-key sequence, `cmp_entry` is a strict weak
ordering on entries: comparing an entry with itself yields `Equal`, the
comparison of `a` with `b` is the inverse of that of `b` with `a`, and
both the induced less-than relation and the induced equivalence are
transitive. -/
theorem cmp_entry_strict_weak_order (keys : List SortBy) (a b d : Entry) :
    cmp_entry a a keys = .eq ∧
    (cmp_entry a b keys).swap = cmp_entry b a keys ∧
    (cmp_entry a b keys = .lt → cmp_entry b d keys = .lt → cmp_entry a d keys = .lt) ∧
    (cmp_entry a b keys = .eq → cmp_entry b d keys = .eq → cmp_entry a d keys = .eq) := by
  have h := lawful_cmp_entry keys
  exact ⟨h.refl a, h.swap a b, fun h₁ h₂ => h.lt_trans h₁ h₂, fun h₁ h₂ => h.eq_trans h₁ h₂⟩

/-- Witness for C5 at concrete entries (file sizes 1, 2, 3, sorting by
file size). -/
theorem cmp_entry_strict_weak_order_witness :
    cmp_entry { baseEntry with file_size := 1 } { baseEntry with file_size := 1 }
      [SortBy.FileSize] = .eq ∧
    cmp_entry { baseEntry with file_size := 1 } { baseEntry with file_size := 3 }
      [SortBy.FileSize] = .lt := by
  refine ⟨(cmp_entry_strict_weak_order [SortBy.FileSize] { baseEntry with file_size := 1 }
    { baseEntry with file_size := 2 } { baseEntry with file_size := 3 }).1, ?_⟩
  exact (cmp_entry_strict_weak_order [SortBy.FileSize] { baseEntry with file_size := 1 }
    { baseEntry with file_size := 2 } { baseEntry with file_size := 3 }).2.2.1
    (by decide) (by decide)

/-! ## Claim C6: the Track sort key

The claim asserts that two entries both lacking a track number compare
`Equal` on the Track key *whatever their totals are*. The code compares
the full `(number, total)` pair (`a.track.cmp(&b.track)` with the derived
`Ord`), so two number-less tracks with different totals are *not* equal;
"empty when `number` is absent regardless of `total`" is the
display/serialization notion (`is_track_empty`), not the comparator's. -/

/-- C6 counterexample: both entries lack a track number, yet on the Track
key they compare `lt` (by their totals), not `Equal` as claimed. -/
theorem track_key_counterexample :
    ({ baseEntry with track := ⟨none, none⟩ } : Entry).track.number = none ∧
    ({ baseEntry with track := ⟨none, some 1⟩ } : Entry).track.number = none ∧
    cmp_entry_key { baseEntry with track := ⟨none, none⟩ }
      { baseEntry with track := ⟨none, some 1⟩ } .Track = .lt ∧
    Ordering.lt ≠ Ordering.eq := by decide

/-- C6 amended: on the Track key, two entries both lacking a track number
compare by their totals (so they compare `Equal` exactly when the totals
compare equal); an absent component sorts before a present one at each
position of the `(number, total)` pair; and "empty regardless of total"
is the display/serialization notion `is_track_empty`. -/
theorem track_key_amended (a b : Entry)
    (h₁ : a.track.number = none) (h₂ : b.track.number = none) :
    cmp_entry_key a b .Track = cmpOption cmpNat a.track.total b.track.total ∧
    (∀ (x y : Option Nat) (n : Nat), cmpTrack ⟨none, x⟩ ⟨some n, y⟩ = .lt) ∧
    (∀ n m : Nat, cmpTrack ⟨some n, none⟩ ⟨some n, some m⟩ = .lt) ∧
    (∀ t : Track, is_track_empty t = t.number.isNone) := by
  refine ⟨?_, fun x y n => rfl, fun n m => by simp [cmpTrack, cmpOption,
    lawful_cmpNat.refl, Ordering.then], fun t => rfl⟩
  simp [cmp_entry_key, cmpTrack, h₁, h₂, cmpOption, Ordering.then]

/-- Witness for C6 (amended) at concrete entries. -/
theorem track_key_amended_witness :
    cmp_entry_key { baseEntry with track := ⟨none, some 4⟩ }
      { baseEntry with track := ⟨none, some 4⟩ } .Track = cmpOption cmpNat (some 4) (some 4) ∧
    cmpTrack ⟨none, some 9⟩ ⟨some 1, none⟩ = .lt := by
  have h := track_key_amended { baseEntry with track := ⟨none, some 4⟩ }
    { baseEntry with track := ⟨none, some 4⟩ } rfl rfl
  exact ⟨h.1, h.2.1 (some 9) none 1⟩

/-! ## Claim C7: sort-order override precedence

The spec's example compares an entry with `title=["B"],
title_sort_order=["A"]` against an entry with `title=["A"]` and claims the
first sorts strictly before the second. In the code the override `["A"]`
replaces `["B"]`, so the comparison is `"a"` versus `"a"`: `Equal`, not
`Less`. -/

/-- C7 counterexample: the comparison of the overridden entry against the
plain `["A"]` entry on the Title key yields `Equal`, not `Less`. -/
theorem title_override_counterexample :
    cmp_entry { baseEntry with title := ["B"], title_sort_order := some ["A"] }
      { baseEntry with title := ["A"] } [SortBy.Title] = .eq ∧
    Ordering.eq ≠ Ordering.lt := by decide

/-- C7 amended: the entry with `title=["B"], title_sort_order=["A"]`
compares `Equal` to the entry with `title=["A"]` (no override) when
sorting by Title — the override is used in place of the display title.
The override does take precedence: against an entry with `title=["AB"]`
the overridden entry compares `Less`, whereas the same entry without the
override would compare `Greater`. -/
theorem title_override_amended :
    cmp_entry { baseEntry with title := ["B"], title_sort_order := some ["A"] }
      { baseEntry with title := ["A"] } [SortBy.Title] = .eq ∧
    cmp_entry { baseEntry with title := ["B"], title_sort_order := some ["A"] }
      { baseEntry with title := ["AB"] } [SortBy.Title] = .lt ∧
    cmp_entry { baseEntry with title := ["B"] }
      { baseEntry with title := ["AB"] } [SortBy.Title] = .gt := by decide

/-! ## Claim C9: human-readable sizes

`src/info.rs` renders sizes below 10 with `format!("{:3} {}", s, "B")`,
which right-aligns the number in a 3-character field: 4 bytes renders as
`"  4 B"`, not `"4 B"`. (The superseded variant in `src/ls/info.rs` uses
`format!("{} {}", …)` and does produce `"4 B"`.) 8080 bytes renders as
`"7.9 kiB"` in both. -/

/-- C9 counterexample: the crate's `human_readable_size` maps 4 bytes to
`"  4 B"` (width-3 right-aligned), not to the claimed `"4 B"`. -/
theorem human_readable_size_counterexample :
    human_readable_size 4 ≠ "4 B" ∧ human_readable_size 4 = "  4 B" := by decide

/-- C9 amended: `human_readable_size` (from `src/info.rs`) maps 8080 bytes
to `"7.9 kiB"` and 4 bytes to `"  4 B"` (the number right-aligned in a
3-character field); the `src/ls/info.rs` variant maps 8080 to `"7.9 kiB"`
and 4 to `"4 B"` without the padding. -/
theorem human_readable_size_values :
    human_readable_size 8080 = "7.9 kiB" ∧
    human_readable_size 4 = "  4 B" ∧
    human_readable_size_ls_variant 8080 = "7.9 kiB" ∧
    human_readable_size_ls_variant 4 = "4 B" := by decide

/-! ## Claim C8: sort-order override extraction

`tag_option_string_values` maps the frame's value list through the
empty-string filter but keeps the `Some` wrapper whenever the frame is
supplied, so a sort-name frame whose values are all empty produces a
*present-but-empty* override, contradicting the claim's "at least one
value remains" condition. -/

/-- C8 counterexample: the tag supplies the `TSOT` slot, after dropping
empty strings no value remains, and yet the produced entry's override is
`some []` — present but empty, which the claim says can never happen. -/
theorem sort_order_override_counterexample :
    (tagEmptySortName.frames.lookup "TSOT") = some [""] ∧
    (mkEntry "a.mp3" 0 tagEmptySortName).title_sort_order = some [] ∧
    some ([] : List String) ≠ (none : Option (List String)) := by decide

/-- C8 amended: each sort-order override field of the produced `Entry` is
present if and only if the tag supplies the corresponding sort-name slot
(regardless of whether any value survives the empty-string filter); its
value is the slot's value list with empty strings dropped, possibly the
empty sequence. -/
theorem sort_order_override_extraction (tag : TagData) (name : String) (size : Nat) :
    (mkEntry name size tag).title_sort_order =
      (tag.frames.lookup "TSOT").map (fun v => v.filter (fun s => !s.isEmpty)) ∧
    (mkEntry name size tag).artist_sort_order =
      (tag.frames.lookup "TSOP").map (fun v => v.filter (fun s => !s.isEmpty)) ∧
    (mkEntry name size tag).album_sort_order =
      (tag.frames.lookup "TSOA").map (fun v => v.filter (fun s => !s.isEmpty)) ∧
    (mkEntry name size tag).title_sort_order.isSome = (tag.frames.lookup "TSOT").isSome ∧
    (mkEntry name size tag).artist_sort_order.isSome = (tag.frames.lookup "TSOP").isSome ∧
    (mkEntry name size tag).album_sort_order.isSome = (tag.frames.lookup "TSOA").isSome := by
  refine ⟨rfl, rfl, rfl, ?_, ?_, ?_⟩ <;>
    simp [mkEntry, tag_option_string_values]

/-! ## Claim C1: error-handling policy -/

/-- C1: (i) a directory-enumerated file whose tag extraction fails with a
non-I/O error is silently skipped — it is classified to nothing, and a
directory containing such a file lists exactly as the same directory
without it; (ii) for an explicitly named file, *any* tag-extraction
failure (including the not-an-audio-format kind) fails the whole
operation with a tag-read error (`Id3Error`) on that path; (iii) an
underlying I/O fault — in the metadata read or inside the tag read,
enumerated or explicit — aborts the operation with an `IoReadError`
carrying the specific file path. -/
theorem error_policy (recursive : Bool) (dirPath path n₁ n₂ : String)
    (s₁ s₂ size : Nat) (t : TagData) (tagRes : Except Id3Err TagData)
    (e : IoErr) (err : Id3Err) (opts : ListOptions) :
    classifyChild recursive dirPath (n₂, .file (.ok s₂) (.error .other)) = none ∧
    listPath (.dir [(n₁, .file (.ok s₁) (.ok t)), (n₂, .file (.ok s₂) (.error .other))])
        path opts =
      listPath (.dir [(n₁, .file (.ok s₁) (.ok t))]) path opts ∧
    listPath (.file (.ok size) (.error err)) path opts = .error (.id3Error path err) ∧
    classifyChild recursive dirPath (n₂, .file (.ok size) (.error (.io e))) =
      some (.error (.ioReadError (childPath dirPath n₂) e)) ∧
    classifyChild recursive dirPath (n₂, .file (.error e) tagRes) =
      some (.error (.ioReadError (childPath dirPath n₂) e)) ∧
    listPath (.file (.error e) tagRes) path opts = .error (.ioReadError path e) ∧
    listPath (.dir [(n₂, .file (.ok size) (.error (.io e)))]) path opts =
      .error (.ioReadError (childPath path n₂) e) := by
  refine ⟨rfl, ?_, listPath_file_tag_error size err path opts, rfl, rfl,
    listPath_file_meta_error e tagRes path opts, ?_⟩
  · have h₁ : walkDirEntries opts.recursive path
        [(n₁, .file (.ok s₁) (.ok t)), (n₂, .file (.ok s₂) (.error .other))] =
        .ok [.inl (n₁, s₁, t)] := by
      by_cases hle : ((cmpString n₁ n₂).isLE = true) <;>
        simp [walkDirEntries, sortByCmp, List.insertionSort, List.orderedInsert, hle,
          classifyChild, collectExcept, Except.map, List.filterMap]
    have h₂ : walkDirEntries opts.recursive path [(n₁, .file (.ok s₁) (.ok t))] =
        .ok [.inl (n₁, s₁, t)] := by
      simp [walkDirEntries, sortByCmp, List.insertionSort, List.orderedInsert,
        classifyChild, collectExcept, Except.map, List.filterMap]
    rw [listPath_dir_ok h₁, listPath_dir_ok h₂]
  · have h₁ : walkDirEntries opts.recursive path [(n₂, .file (.ok size) (.error (.io e)))] =
        .error (.ioReadError (childPath path n₂) e) := by
      simp [walkDirEntries, sortByCmp, List.insertionSort, List.orderedInsert,
        classifyChild, collectExcept, List.filterMap]
    exact listPath_dir_error h₁

/-! ## Independence of the walk from the sort specification -/

theorem collectExcept_rel {R : α → β → Prop} {L₁ : List (Except ε α)} {L₂ : List (Except ε β)}
    (h : List.Forall₂ (ExceptRel R) L₁ L₂) :
    ExceptRel (List.Forall₂ R) (collectExcept L₁) (collectExcept L₂) := by
  induction h with
  | nil => exact .inr ⟨[], [], rfl, rfl, .nil⟩
  | cons hx hl ih =>
    rcases hx with ⟨e, hx₁, hx₂⟩ | ⟨a, b, hx₁, hx₂, hab⟩
    · subst hx₁
      subst hx₂
      exact .inl ⟨e, rfl, rfl⟩
    · subst hx₁
      subst hx₂
      rcases ih with ⟨e, h₁, h₂⟩ | ⟨ra, rb, h₁, h₂, hr⟩
      · refine .inl ⟨e, ?_, ?_⟩ <;> simp [collectExcept, h₁, h₂, Except.map]
      · refine .inr ⟨a :: ra, b :: rb, ?_, ?_, .cons hab hr⟩ <;>
          simp [collectExcept, h₁, h₂, Except.map]

/-- The listing result depends on the reverse flag and the sort keys only
up to the order of each `Info`'s entries: two option records with the
same `recursive` flag produce the same error, or `Info` sequences with
identical paths and path types and permuted entry lists. -/
theorem listPath_opts_indep : ∀ (fuel : Nat) (node : FsNode), sizeOf node ≤ fuel →
    ∀ (path : String) (o₁ o₂ : ListOptions), o₁.recursive = o₂.recursive →
    ExceptRel (List.Forall₂ InfoRel) (listPath node path o₁) (listPath node path o₂) := by
  intro fuel
  induction fuel with
  | zero =>
    intro node hn
    exfalso
    cases node <;> simp at hn
  | succ fuel ih =>
    intro node hn path o₁ o₂ hrec
    cases node with
    | other =>
      rw [listPath_other, listPath_other]
      exact .inl ⟨_, rfl, rfl⟩
    | file meta tag =>
      cases meta with
      | error e =>
        rw [listPath_file_meta_error, listPath_file_meta_error]
        exact .inl ⟨_, rfl, rfl⟩
      | ok size =>
        cases tag with
        | error err =>
          rw [listPath_file_tag_error, listPath_file_tag_error]
          exact .inl ⟨_, rfl, rfl⟩
        | ok t =>
          rw [listPath_file_ok, listPath_file_ok]
          refine .inr ⟨_, _, rfl, rfl, .cons ⟨rfl, rfl, ?_⟩ .nil⟩
          simp only [sortEntries]
          exact (sortByCmp_perm _ _).trans (sortByCmp_perm _ _).symm
    | dir children =>
      have hwrec : walkDirEntries o₂.recursive path children =
          walkDirEntries o₁.recursive path children := by rw [hrec]
      cases hw : walkDirEntries o₁.recursive path children with
      | error e =>
        rw [listPath_dir_error hw, listPath_dir_error (hwrec.trans hw)]
        exact .inl ⟨_, rfl, rfl⟩
      | ok walked =>
        rw [listPath_dir_ok hw, listPath_dir_ok (hwrec.trans hw)]
        have hsub : ∀ d ∈ subdirsOf walked, sizeOf d.2 ≤ fuel := by
          intro d hd
          obtain ⟨name, hn₂⟩ := subdir_mem hw hd
          have hlt := List.sizeOf_lt_of_mem hn₂
          simp at hlt hn
          omega
        have hrel : List.Forall₂ (ExceptRel (List.Forall₂ InfoRel))
            ((subdirsOf walked).map fun d => listPath d.2 d.1 o₁)
            ((subdirsOf walked).map fun d => listPath d.2 d.1 o₂) := by
          rw [List.forall₂_map_left_iff, List.forall₂_map_right_iff]
          refine List.forall₂_same.mpr fun d hd => ?_
          exact ih d.2 (hsub d hd) d.1 o₁ o₂ hrec
        rcases collectExcept_rel hrel with ⟨e, he₁, he₂⟩ | ⟨rs₁, rs₂, h₁, h₂, hr⟩
        · rw [he₁, he₂]
          exact .inl ⟨_, rfl, rfl⟩
        · rw [h₁, h₂]
          refine .inr ⟨_, _, rfl, rfl, .cons ⟨rfl, rfl, ?_⟩ (List.rel_flatten hr)⟩
          simp only [sortEntries]
          exact (sortByCmp_perm _ _).trans (sortByCmp_perm _ _).symm

/-! ## Claim C10: the reverse flag only permutes entries -/

theorem forall₂_inforel_decomp {l₁ l₂ : List Info} (h : List.Forall₂ InfoRel l₁ l₂) :
    l₁.map Info.path = l₂.map Info.path ∧
    l₁.map Info.path_type = l₂.map Info.path_type ∧
    List.Forall₂ (fun a b => a.entries.Perm b.entries) l₁ l₂ := by
  induction h with
  | nil => exact ⟨rfl, rfl, .nil⟩
  | cons hx hl ih =>
    obtain ⟨hp, ht, he⟩ := hx
    exact ⟨by simp [hp, ih.1], by simp [ht, ih.2.1], .cons he ih.2.2⟩

/-- C10: the reverse flag changes only the order of results, never their
content: for every filesystem, path and sort-key sequence, running with
`reverse = true` either fails with exactly the same error as with
`reverse = false`, or returns `Info` sequences with identical path
sequences, identical path-type sequences, and pairwise-permuted entry
lists. -/
theorem reverse_flag_permutation (node : FsNode) (path : String)
    (sort_by : List SortBy) (recursive : Bool) :
    (∃ e, listPath node path ⟨sort_by, false, recursive⟩ = .error e ∧
          listPath node path ⟨sort_by, true, recursive⟩ = .error e) ∨
    (∃ l₁ l₂, listPath node path ⟨sort_by, false, recursive⟩ = .ok l₁ ∧
              listPath node path ⟨sort_by, true, recursive⟩ = .ok l₂ ∧
              l₁.map Info.path = l₂.map Info.path ∧
              l₁.map Info.path_type = l₂.map Info.path_type ∧
              List.Forall₂ (fun a b => a.entries.Perm b.entries) l₁ l₂) := by
  rcases listPath_opts_indep (sizeOf node) node le_rfl path
      ⟨sort_by, false, recursive⟩ ⟨sort_by, true, recursive⟩ rfl with
    ⟨e, h₁, h₂⟩ | ⟨l₁, l₂, h₁, h₂, hr⟩
  · exact .inl ⟨e, h₁, h₂⟩
  · obtain ⟨hp, ht, he⟩ := forall₂_inforel_decomp hr
    exact .inr ⟨l₁, l₂, h₁, h₂, hp, ht, he⟩

/-! ## Claim C2: deterministic traversal order -/

/-- C2: for every walked directory, the children are processed in
lexicographic raw-byte name order (the processed sequence is the sorted
permutation of the children), the pending subdirectories are visited in
lexicographic order, both independent of the requested sort keys and
reverse flag; the `Info` of the current directory is emitted first, with
its own entries sorted per the active sort specification, followed by the
depth-first recursion results of the pending subdirectories in their
sorted order, one `Info` per directory reached. -/
theorem traversal_order {children : List (String × FsNode)} {path : String}
    {opts : ListOptions} {infos : List Info}
    (h : listPath (.dir children) path opts = .ok infos) :
    ∃ walked results,
      walkDirEntries opts.recursive path children = .ok walked ∧
      collectExcept ((subdirsOf walked).map fun d => listPath d.2 d.1 opts) = .ok results ∧
      infos = { path := path, path_type := .Directory,
                entries := sortEntries opts
                  ((filesOf walked).map fun f => mkEntry f.1 f.2.1 f.2.2) } ::
        results.flatten ∧
      walkDirEntries opts.recursive path children =
        collectExcept ((sortByCmp (fun a b => cmpString a.1 b.1) children).filterMap
          (classifyChild opts.recursive path)) ∧
      (sortByCmp (fun a b => cmpString a.1 b.1) children).Perm children ∧
      List.Pairwise (fun a b => (cmpString a.1 b.1).isLE = true)
        (sortByCmp (fun a b => cmpString a.1 b.1) children) ∧
      List.Pairwise (fun a b => (cmpString a.1 b.1).isLE = true) (subdirsOf walked) ∧
      (∀ opts₂ : ListOptions, opts₂.recursive = opts.recursive →
        walkDirEntries opts₂.recursive path children = .ok walked) := by
  cases hw : walkDirEntries opts.recursive path children with
  | error e =>
    rw [listPath_dir_error hw] at h
    cases h
  | ok walked =>
    rw [listPath_dir_ok hw] at h
    cases hc : collectExcept ((subdirsOf walked).map fun d => listPath d.2 d.1 opts) with
    | error e =>
      rw [hc] at h
      cases h
    | ok results =>
      rw [hc] at h
      injection h with h
      refine ⟨walked, results, rfl, hc, h.symm, hw.symm, sortByCmp_perm _ _,
        sortByCmp_sorted lawful_cmpFst _, sortByCmp_sorted lawful_cmpFst _,
        fun opts₂ h₂ => ?_⟩
      rw [h₂]
      exact hw

/-- Witness for C2: a concrete directory `d` holding a subdirectory `sub`
and an MP3 file `b.mp3`, listed recursively sorting by file name. -/
theorem traversal_order_witness :
    ∃ walked results,
      walkDirEntries (ListOptions.mk [SortBy.FileName] false true).recursive "d"
        [("sub", FsNode.dir []), ("b.mp3", fsSong)] = .ok walked ∧
      collectExcept ((subdirsOf walked).map fun d =>
        listPath d.2 d.1 (ListOptions.mk [SortBy.FileName] false true)) = .ok results ∧
      [{ path := "d", path_type := .Directory, entries := [mkEntry "b.mp3" 100 tagSong] },
        { path := "d/sub", path_type := PathType.Directory, entries := [] }] =
        { path := "d", path_type := PathType.Directory,
          entries := sortEntries (ListOptions.mk [SortBy.FileName] false true)
            ((filesOf walked).map fun f => mkEntry f.1 f.2.1 f.2.2) } :: results.flatten ∧
      walkDirEntries (ListOptions.mk [SortBy.FileName] false true).recursive "d"
        [("sub", FsNode.dir []), ("b.mp3", fsSong)] =
        collectExcept ((sortByCmp (fun a b => cmpString a.1 b.1)
          [("sub", FsNode.dir []), ("b.mp3", fsSong)]).filterMap
          (classifyChild (ListOptions.mk [SortBy.FileName] false true).recursive "d")) ∧
      (sortByCmp (fun a b => cmpString a.1 b.1)
        [("sub", FsNode.dir []), ("b.mp3", fsSong)]).Perm
        [("sub", FsNode.dir []), ("b.mp3", fsSong)] ∧
      List.Pairwise (fun a b => (cmpString a.1 b.1).isLE = true)
        (sortByCmp (fun a b => cmpString a.1 b.1)
          [("sub", FsNode.dir []), ("b.mp3", fsSong)]) ∧
      List.Pairwise (fun a b => (cmpString a.1 b.1).isLE = true) (subdirsOf walked) ∧
      (∀ opts₂ : ListOptions,
        opts₂.recursive = (ListOptions.mk [SortBy.FileName] false true).recursive →
        walkDirEntries opts₂.recursive "d"
          [("sub", FsNode.dir []), ("b.mp3", fsSong)] = .ok walked) := by
  have h₂ : walkDirEntries (ListOptions.mk [SortBy.FileName] false true).recursive "d/sub"
      ([] : List (String × FsNode)) = .ok [] := rfl
  have h₃ : listPath (FsNode.dir []) "d/sub" ⟨[SortBy.FileName], false, true⟩ =
      .ok [{ path := "d/sub", path_type := .Directory, entries := [] }] := by
    rw [listPath_dir_ok h₂]
    rfl
  have h : listPath (.dir [("sub", FsNode.dir []), ("b.mp3", fsSong)]) "d"
      ⟨[SortBy.FileName], false, true⟩ =
      .ok [{ path := "d", path_type := .Directory,
             entries := [mkEntry "b.mp3" 100 tagSong] },
           { path := "d/sub", path_type := .Directory, entries := [] }] := by
    have h₁ : walkDirEntries (ListOptions.mk [SortBy.FileName] false true).recursive "d"
        [("sub", FsNode.dir []), ("b.mp3", fsSong)] =
        .ok [Sum.inl ("b.mp3", 100, tagSong), Sum.inr ("d/sub", FsNode.dir [])] := rfl
    rw [listPath_dir_ok h₁]
    simp only [subdirsOf, filesOf, sortByCmp, List.insertionSort, List.orderedInsert,
      List.filterMap, List.map, h₃, collectExcept, Except.map]
    rfl
  exact traversal_order h
